import Mathlib

/-!
Verification of the RemoteOK crypto job scraper (`src/crypto_scraper.py`)
against its natural-language specification.

The embedding models the pure core of the script:
* `safe_parse_date` (lines 60-89): timestamp normalization,
* `match_jobs` (lines 130-175): recency cutoff and keyword matching,
* `save_jobs` (lines 178-213): ledger deduplication and novelty detection,
* the startup credential check (lines 25-27, 41-43).

Python dynamic values are embedded as follows: a JSON field that may be
absent, a string, or a number becomes `RawVal`; Python truthiness
(`not x`, `x or y`) is `RawVal.truthy` / `RawVal.pyOr`; machine floats
holding epoch seconds are modelled as `Int` seconds (the script only ever
compares and stores whole seconds for the inputs the claims quantify over;
fractional-second inputs are outside the model and are noted where
relevant).  File I/O in `save_jobs` is made explicit: the function takes
the ledger-file contents before the call (`none` = file absent) and
returns the contents afterwards together with the list of file events the
source performs.
-/

namespace CryptoScraper

/-! ## Characters and substrings

`str.lower()` in the source is applied to ASCII keyword/tag/title text;
`lowerChar` is the ASCII lowering the source relies on.  Python's
`needle in haystack` on strings is substring containment, embedded as
`isSubB`; on lists it is element membership, embedded as `List.contains`.
-/

def lowerChar (c : Char) : Char :=
  if 65 ≤ c.toNat ∧ c.toNat ≤ 90 then Char.ofNat (c.toNat + 32) else c

def lowerStr (s : String) : List Char := s.toList.map lowerChar

def isPrefixB : List Char → List Char → Bool
  | [], _ => true
  | _ :: _, [] => false
  | a :: as, b :: bs => a == b && isPrefixB as bs

/-- Python `needle in haystack` for strings: substring containment. -/
def isSubB (needle : List Char) : List Char → Bool
  | [] => needle.isEmpty
  | c :: rest => isPrefixB needle (c :: rest) || isSubB needle rest

/-! ## Raw JSON values and Python truthiness -/

/-- A JSON field value as the script sees it: absent/`None`, a string, or a
number.  Numbers are modelled as integers (epoch seconds / numeric ids). -/
inductive RawVal where
  | vNone : RawVal
  | vStr : String → RawVal
  | vNum : Int → RawVal
deriving DecidableEq, Repr

/-- Python truthiness: `None`, `""` and `0` are falsy. -/
def RawVal.truthy : RawVal → Bool
  | .vNone => false
  | .vStr s => !(s == "")
  | .vNum n => !(n == 0)

/-- Python `a or b`: `b` when `a` is falsy, else `a` (line 137). -/
def RawVal.pyOr (a b : RawVal) : RawVal := if a.truthy then a else b

/-- Python `str(...)` / f-string rendering of a raw value. -/
def RawVal.pyStr : RawVal → String
  | .vNone => "None"
  | .vStr s => s
  | .vNum n => toString n

/-! ## Proleptic Gregorian calendar (what `datetime` implements) -/

def isLeap (y : Nat) : Bool := y % 4 == 0 && (y % 100 != 0 || y % 400 == 0)

def monthLengths (leap : Bool) : List Nat :=
  [31, if leap then 29 else 28, 31, 30, 31, 30, 31, 31, 30, 31, 30, 31]

def monthLen (y m : Nat) : Nat := (monthLengths (isLeap y)).getD (m - 1) 0

def daysBeforeMonth (leap : Bool) (m : Nat) : Nat :=
  ((monthLengths leap).take (m - 1)).foldl (fun a b => a + b) 0

/-- Rata-die day number: 0001-01-01 is day 1 (as in `datetime.toordinal`). -/
def rataDie (y m d : Nat) : Nat :=
  365 * (y - 1) + (y - 1) / 4 - (y - 1) / 100 + (y - 1) / 400 +
    daysBeforeMonth (isLeap y) m + d

def monthDayAux : Nat → List Nat → Nat → Nat × Nat
  | m, [], doy => (m, doy)
  | m, len :: rest, doy =>
      if doy ≤ len then (m, doy) else monthDayAux (m + 1) rest (doy - len)

/-- Inverse of `rataDie` (the ladder used by `datetime.fromordinal`). -/
def civilFromRD (rd : Nat) : Nat × Nat × Nat :=
  let n := rd - 1
  let n400 := n / 146097
  let r1 := n % 146097
  let n100 := r1 / 36524
  let r2 := r1 % 36524
  let n4 := r2 / 1461
  let r3 := r2 % 1461
  let n1 := r3 / 365
  let r4 := r3 % 365
  let y := 400 * n400 + 100 * n100 + 4 * n4 + n1 + 1
  if n1 = 4 ∨ n100 = 4 then (y - 1, 12, 31)
  else
    let md := monthDayAux 1 (monthLengths (isLeap y)) (r4 + 1)
    (y, md.1, md.2)

def pad2 (n : Nat) : String := if n < 10 then "0" ++ Nat.repr n else Nat.repr n

def pad4 (n : Nat) : String :=
  if n < 10 then "000" ++ Nat.repr n
  else if n < 100 then "00" ++ Nat.repr n
  else if n < 1000 then "0" ++ Nat.repr n
  else Nat.repr n

/-- `dt.strftime("%Y-%m-%d %H:%M:%S %Z")` of the UTC instant `e` seconds
after the Unix epoch (the only strftime format the script uses). -/
def formatUtc (e : Int) : String :=
  let days := Int.fdiv e 86400
  let sod := (e - 86400 * days).toNat
  let rd := (days + (rataDie 1970 1 1 : Int)).toNat
  let c := civilFromRD rd
  pad4 c.1 ++ "-" ++ pad2 c.2.1 ++ "-" ++ pad2 c.2.2 ++ " " ++
    pad2 (sod / 3600) ++ ":" ++ pad2 (sod % 3600 / 60) ++ ":" ++ pad2 (sod % 60) ++ " UTC"

/-! ## ISO-8601 parsing (`datetime.fromisoformat`, line 68) -/

def readDigitsAux : Nat → Nat → List Char → Option (Nat × List Char)
  | 0, acc, l => some (acc, l)
  | _ + 1, _, [] => none
  | k + 1, acc, c :: l =>
      if c.isDigit then readDigitsAux k (acc * 10 + (c.toNat - 48)) l else none

def expectChar (c : Char) : List Char → Option (List Char)
  | [] => none
  | a :: l => if a = c then some l else none

def validDate (y mo d : Nat) : Bool :=
  1 ≤ y && 1 ≤ mo && mo ≤ 12 && 1 ≤ d && d ≤ monthLen y mo

def validTime (hh mi ss : Nat) : Bool := hh ≤ 23 && mi ≤ 59 && ss ≤ 59

def epochOfCivil (y mo d hh mi ss : Nat) (off : Int) : Int :=
  ((rataDie y mo d : Int) - (rataDie 1970 1 1 : Int)) * 86400 +
    ((hh * 3600 + mi * 60 + ss : Nat) : Int) - off

/-- Trailing UTC-offset part `±HH:MM`; an empty remainder means a naive
datetime, which the source forces to UTC (lines 69-70), hence offset 0.
`timezone` rejects offsets of 24 hours or more. -/
def parseOffset : List Char → Option Int
  | [] => some 0
  | sgn :: rest =>
      if sgn = '+' ∨ sgn = '-' then
        match readDigitsAux 2 0 rest with
        | none => none
        | some (oh, r1) =>
          match expectChar ':' r1 with
          | none => none
          | some r2 =>
            match readDigitsAux 2 0 r2 with
            | none => none
            | some (om, r3) =>
              if r3.isEmpty && decide (oh * 3600 + om * 60 < 86400) then
                some (if sgn = '-' then -((oh * 3600 + om * 60 : Nat) : Int)
                      else ((oh * 3600 + om * 60 : Nat) : Int))
              else none
      else none

/-- Time-of-day part after the date: empty (midnight), or any single
separator character followed by `HH[:MM[:SS]]` and an optional offset.
Fractional seconds are outside the model. Returns `(hh, mi, ss, offset)`. -/
def parseTimePart : List Char → Option (Nat × Nat × Nat × Int)
  | [] => some (0, 0, 0, 0)
  | _sep :: rest =>
      match readDigitsAux 2 0 rest with
      | none => none
      | some (hh, r1) =>
        match r1 with
        | ':' :: t =>
          match readDigitsAux 2 0 t with
          | none => none
          | some (mi, r2) =>
            match r2 with
            | ':' :: t2 =>
              match readDigitsAux 2 0 t2 with
              | none => none
              | some (ss, r3) =>
                match parseOffset r3 with
                | none => none
                | some off => some (hh, mi, ss, off)
            | other =>
              match parseOffset other with
              | none => none
              | some off => some (hh, mi, 0, off)
        | other =>
          match parseOffset other with
          | none => none
          | some off => some (hh, 0, 0, off)

/-- `datetime.fromisoformat` on a character list, already Z-replaced,
followed by `astimezone(timezone.utc)`: the result is the UTC instant in
epoch seconds.  The date part must be exactly `YYYY-MM-DD`. -/
def parseIso (l : List Char) : Option Int :=
  match readDigitsAux 4 0 l with
  | none => none
  | some (y, r1) =>
    match expectChar '-' r1 with
    | none => none
    | some r2 =>
      match readDigitsAux 2 0 r2 with
      | none => none
      | some (mo, r3) =>
        match expectChar '-' r3 with
        | none => none
        | some r4 =>
          match readDigitsAux 2 0 r4 with
          | none => none
          | some (d, r5) =>
            if validDate y mo d then
              match parseTimePart r5 with
              | none => none
              | some (hh, mi, ss, off) =>
                if validTime hh mi ss then some (epochOfCivil y mo d hh mi ss off)
                else none
            else none

/-- `date_raw.replace("Z", "+00:00")` (line 68): every `Z` is replaced. -/
def replaceZ : List Char → List Char
  | [] => []
  | c :: rest =>
      if c = 'Z' then '+' :: '0' :: '0' :: ':' :: '0' :: '0' :: replaceZ rest
      else c :: replaceZ rest

/-! ## `float(...)` and `datetime.fromtimestamp` -/

def digitsVal (l : List Char) : Nat :=
  l.foldl (fun a c => a * 10 + (c.toNat - 48)) 0

def parseNatDigits (l : List Char) : Option Nat :=
  if !l.isEmpty && l.all Char.isDigit then some (digitsVal l) else none

/-- Python `float(s)` restricted to optionally signed decimal integer
strings, the shape epoch fields take; fraction/exponent/whitespace float
syntax is outside the `Int`-seconds model. -/
def parseFloatChars : List Char → Option Int
  | '-' :: rest => (parseNatDigits rest).map (fun v => -(v : Int))
  | '+' :: rest => (parseNatDigits rest).map (fun v => (v : Int))
  | l => (parseNatDigits l).map (fun v => (v : Int))

/-- Earliest epoch representable by `datetime` (0001-01-01T00:00:00Z). -/
def minEpoch : Int := -(((rataDie 1970 1 1 - 1 : Nat) * 86400 : Nat) : Int)

/-- Latest epoch representable by `datetime` (9999-12-31T23:59:59Z). -/
def maxEpoch : Int := (((rataDie 10000 1 1 - rataDie 1970 1 1 : Nat) * 86400 : Nat) : Int) - 1

/-- `datetime.fromtimestamp(e, tz=timezone.utc)`: the UTC instant `e`, or a
raised error (`none`) outside `datetime`'s representable range. -/
def fromtimestampUtc (e : Int) : Option Int :=
  if minEpoch ≤ e && e ≤ maxEpoch then some e else none

/-! ## `safe_parse_date` (lines 60-89) -/

/-- `safe_parse_date(date_raw)`: returns the parsed UTC instant (or `none`)
and the human-readable string, exactly as lines 60-89.  The leading
`if not date_raw` truthiness test is distributed over the three value
shapes: `None`, `""` and `0` all yield `(None, "None")`. -/
def safe_parse_date : RawVal → Option Int × String
  | .vNone => (none, "None")
  | .vStr s =>
      if s = "" then (none, "None")
      else
        match parseIso (replaceZ s.toList) with
        | some t => (some t, formatUtc t)
        | none =>
          match parseFloatChars s.toList with
          | some e =>
            match fromtimestampUtc e with
            | some t => (some t, formatUtc t)
            | none => (none, "Unparseable-string:" ++ s)
          | none => (none, "Unparseable-string:" ++ s)
  | .vNum n =>
      if n = 0 then (none, "None")
      else
        match fromtimestampUtc n with
        | some t => (some t, formatUtc t)
        | none => (none, "Unparseable-nonstr:" ++ toString n)

/-! ## Raw and canonical job records -/

/-- A raw posting as fetched from the API (`job.get(...)` fields used by
the script).  `Option … = none` models an absent key; `.get` with a present
`null` value behaves identically for every use the script makes. -/
structure RawJob where
  id : RawVal
  position : Option String
  company : Option String
  location : Option String
  date : RawVal
  epoch : RawVal
  created_at : RawVal
  posting_date : RawVal
  slug : RawVal
  tags : List String
deriving DecidableEq, Repr

/-- The record appended to `matched` (lines 162-170).  `job_id` is stored
stringified (the script stringifies it at dedup time and the CSV
round-trip stringifies it anyway).  `epoch` is `none` for rows read back
from the CSV, whose epoch column was dropped before saving (line 207). -/
structure CanonJob where
  job_id : String
  title : Option String
  company : Option String
  location : String
  date_posted : String
  link : String
  epoch : Option Int
deriving DecidableEq, Repr

/-- The keyword list `TAGS` (lines 31-35). -/
def TAGS : List String :=
  ["crypto", "blockchain", "web3", "bitcoin", "ethereum",
   "defi", "solidity", "smart contract", "nft", "dao",
   "crypto engineer", "blockchain engineer"]

/-- Lines 152-160: `t in tags_lower` is Python list membership (exact
equality against each lowercased tag), while `t in pos` / `t in comp` are
substring containment on the lowercased title and company.  The `for`
loop with `break` is an existential over `TAGS`. -/
def keywordMatch (job : RawJob) : Bool :=
  let tags_lower := job.tags.map lowerStr
  let pos := lowerStr (job.position.getD "")
  let comp := lowerStr (job.company.getD "")
  TAGS.any (fun t => tags_lower.contains t.toList || isSubB t.toList pos || isSubB t.toList comp)

/-- Line 136: `jid = job.get("id") or f"no-id-{idx}"`. -/
def jidStr (idx : Nat) (job : RawJob) : String :=
  if job.id.truthy then job.id.pyStr else "no-id-" ++ Nat.repr idx

/-- Line 137: `job.get("date") or job.get("epoch") or job.get("created_at")
or job.get("posting_date")`. -/
def dateField (job : RawJob) : RawVal :=
  ((job.date.pyOr job.epoch).pyOr job.created_at).pyOr job.posting_date

/-- The record built at lines 162-170 for a matched job. -/
def mkCanon (idx : Nat) (job : RawJob) (parsed : Int) : CanonJob :=
  { job_id := jidStr idx job
    title := job.position
    company := job.company
    location := job.location.getD "Remote"
    date_posted := formatUtc parsed
    link := "https://remoteok.com/remote-jobs/" ++
      (if job.slug.truthy then job.slug.pyStr else jidStr idx job)
    epoch := some parsed }

/-- The body of the `for idx, job in enumerate(jobs)` loop (lines 135-170)
for one job: emits the canonical record, or nothing when the date fails to
parse, the recency test fails, or no keyword matches. -/
def processJob (cutoff : Int) (force : Bool) (idx : Nat) (job : RawJob) : List CanonJob :=
  match (safe_parse_date (dateField job)).1 with
  | none => []
  | some parsed =>
    if force || decide (cutoff ≤ parsed) then
      if keywordMatch job then [mkCanon idx job parsed] else []
    else []

def matchJobsAux (cutoff : Int) (force : Bool) : Nat → List RawJob → List CanonJob
  | _, [] => []
  | idx, job :: rest =>
      processJob cutoff force idx job ++ matchJobsAux cutoff force (idx + 1) rest

/-- `match_jobs(jobs, max_age_days, force_show_all)` (lines 130-175) with
the impure `datetime.now(timezone.utc)` passed in as `now`;
`cutoff = now - timedelta(days=max_age_days)` (line 131). -/
def match_jobs (now : Int) (max_age_days : Int) (force_show_all : Bool)
    (jobs : List RawJob) : List CanonJob :=
  matchJobsAux (now - max_age_days * 86400) force_show_all 0 jobs

/-! ## `save_jobs` (lines 178-213) -/

def idsOf (l : List CanonJob) : List String := l.map (fun j => j.job_id)

/-- `drop_duplicates(subset=["job_id"], keep="first")` applied to
`concat([df_existing, df_new])` (line 199): keep the first row seen for
each `job_id`. -/
def dedupeAux (seen : List String) : List CanonJob → List CanonJob
  | [] => []
  | j :: rest =>
      if seen.contains j.job_id then dedupeAux seen rest
      else j :: dedupeAux (j.job_id :: seen) rest

/-- Line 207: the `epoch` sort key is dropped before the combined frame is
written back to the CSV. -/
def dropEpoch (j : CanonJob) : CanonJob := { j with epoch := none }

/-- A file operation `save_jobs` performs on the ledger CSV. -/
inductive FsEvent where
  | read : FsEvent
  | write : FsEvent
deriving DecidableEq, Repr

structure SaveResult where
  /-- The returned `new_jobs` (line 192). -/
  novel : List CanonJob
  /-- Ledger-file contents after the call (`none` = file absent). -/
  fileAfter : Option (List CanonJob)
  /-- Ledger-file operations performed, in order. -/
  events : List FsEvent
deriving DecidableEq, Repr

/-- `save_jobs(jobs, filename)` (lines 178-213) as a function of the
ledger-file contents before the call.  With no matched jobs it returns
`[]` immediately (line 179-180), touching no file.  Otherwise it reads the
CSV (line 183), computes `new_jobs` against the pre-merge ids (line 192),
re-reads the CSV (line 198), concatenates existing-then-new and drops
duplicate `job_id`s keeping the first (line 199), drops the `epoch` column
(lines 205-207) and writes the result back (line 209).  The
`sort_values("epoch")` reordering of rows before the write is omitted: it
is a permutation of the rows (pandas' unstable quicksort), and every
property stated below about the stored ledger is order-insensitive. -/
def save_jobs (file : Option (List CanonJob)) (jobs : List CanonJob) : SaveResult :=
  if jobs.isEmpty then { novel := [], fileAfter := file, events := [] }
  else
    let existing := file.getD []
    let existing_ids := idsOf existing
    let new_jobs := jobs.filter (fun j => !(existing_ids.contains j.job_id))
    let combined := dedupeAux [] (existing ++ jobs)
    { novel := new_jobs
      fileAfter := some (combined.map dropEpoch)
      events := (if file.isSome then [FsEvent.read, FsEvent.read] else []) ++ [FsEvent.write] }

/-! ## Startup configuration (lines 25-27, 41-43) -/

/-- Python truthiness of `os.environ.get(...)`: absent or empty is falsy. -/
def pyTruthyStr : Option String → Bool
  | none => false
  | some s => !(s == "")

structure StartupResult where
  /-- Whether startup terminates the process.  The script has no exit
  call: the check at lines 41-43 only prints a warning and continues. -/
  exited : Bool
  /-- The effective value of `SEND_TELEGRAM` after the check. -/
  sendTelegram : Bool
  /-- Whether the warning at line 42 was printed. -/
  warned : Bool
deriving DecidableEq, Repr

/-- Lines 25-28 read the environment; lines 41-43: if `SEND_TELEGRAM` is
enabled but `TELEGRAM_TOKEN` or `CHAT_ID` is missing, print a warning and
set `SEND_TELEGRAM = False`; execution continues in every case. -/
def startupConfig (telegramToken chatId sendFlagRaw : Option String) : StartupResult :=
  let send := (sendFlagRaw.getD "0") == "1"
  if send && (!(pyTruthyStr telegramToken) || !(pyTruthyStr chatId)) then
    { exited := false, sendTelegram := false, warned := true }
  else
    { exited := false, sendTelegram := send, warned := false }

/-! ## Concrete records used by counterexamples and witnesses -/

/-- A raw posting whose only keyword-relevant text is the tag `"Web3Dev"`. -/
def c1TagJob : RawJob :=
  { id := .vNum 1, position := none, company := none,
    location := none, date := .vNum 1700000000, epoch := .vNone,
    created_at := .vNone, posting_date := .vNone, slug := .vNone, tags := ["Web3Dev"] }

/-- A raw posting whose title contains the keyword `"solidity"`. -/
def c1SolJob : RawJob :=
  { id := .vNum 2, position := some "Solidity Engineer", company := some "Acme",
    location := none, date := .vNum 1700000000, epoch := .vNone,
    created_at := .vNone, posting_date := .vNone, slug := .vNone, tags := [] }

/-- A ledger row as read back from the CSV (no epoch column). -/
def c2Stored : CanonJob :=
  { job_id := "1", title := some "Old Title", company := some "Acme",
    location := "Remote", date_posted := "2024-01-01 00:00:00 UTC",
    link := "https://remoteok.com/remote-jobs/1", epoch := none }

/-- An incoming record with the same id but updated metadata. -/
def c2Incoming : CanonJob :=
  { job_id := "1", title := some "New Title", company := some "Acme",
    location := "Berlin", date_posted := "2024-02-02 00:00:00 UTC",
    link := "https://remoteok.com/remote-jobs/1", epoch := some 1706832000 }

/-- A raw posting with absent company and absent location that passes the
date and keyword filters. -/
def c4Job : RawJob :=
  { id := .vNum 5, position := some "crypto dev", company := none,
    location := none, date := .vNum 1700000000, epoch := .vNone,
    created_at := .vNone, posting_date := .vNone, slug := .vNone, tags := [] }

def c4Canon : CanonJob := mkCanon 0 c4Job 1700000000

/-- The stored record of the spec example `existing = {id:1}`. -/
def c5Ex : CanonJob :=
  { job_id := "1", title := some "Job One", company := some "A",
    location := "Remote", date_posted := "2024-01-01 00:00:00 UTC",
    link := "https://remoteok.com/remote-jobs/1", epoch := none }

def c5In1 : CanonJob :=
  { job_id := "1", title := some "Job One Again", company := some "A",
    location := "Remote", date_posted := "2024-01-02 00:00:00 UTC",
    link := "https://remoteok.com/remote-jobs/1", epoch := some 1704153600 }

def c5In2 : CanonJob :=
  { job_id := "2", title := some "Job Two", company := some "B",
    location := "Remote", date_posted := "2024-01-03 00:00:00 UTC",
    link := "https://remoteok.com/remote-jobs/2", epoch := some 1704240000 }

def c8Good1 : RawJob :=
  { id := .vNum 1, position := some "crypto dev", company := none,
    location := none, date := .vNum 1700000000, epoch := .vNone,
    created_at := .vNone, posting_date := .vNone, slug := .vNone, tags := [] }

/-- A raw posting whose date field is garbage (neither ISO nor numeric). -/
def c8Bad : RawJob :=
  { id := .vNum 9, position := some "defi analyst", company := none,
    location := none, date := .vStr "not-a-date", epoch := .vNone,
    created_at := .vNone, posting_date := .vNone, slug := .vNone, tags := [] }

def c8Good2 : RawJob :=
  { id := .vNum 2, position := some "defi analyst", company := none,
    location := none, date := .vNum 1700000500, epoch := .vNone,
    created_at := .vNone, posting_date := .vNone, slug := .vNone, tags := [] }

/-- A raw posting with an absent id that passes the filters. -/
def c9Job : RawJob :=
  { id := .vNone, position := some "crypto dev", company := none,
    location := none, date := .vNum 1700000000, epoch := .vNone,
    created_at := .vNone, posting_date := .vNone, slug := .vNone, tags := [] }

def c9Canon : CanonJob := mkCanon 7 c9Job 1700000000

/-! ## Helper lemmas -/

theorem contains_iff {α : Type} [BEq α] [LawfulBEq α] (l : List α) (a : α) :
    l.contains a = true ↔ a ∈ l := by
  simp [List.contains]

theorem isPrefixB_iff (n h : List Char) : isPrefixB n h = true ↔ n <+: h := by
  induction n generalizing h with
  | nil => simp [isPrefixB]
  | cons a as ih =>
    cases h with
    | nil => simp [isPrefixB]
    | cons b bs =>
      simp only [isPrefixB, Bool.and_eq_true, beq_iff_eq, ih, List.cons_prefix_cons]

theorem isSubB_iff (n h : List Char) : isSubB n h = true ↔ n <:+: h := by
  induction h with
  | nil => cases n <;> simp [isSubB, List.isEmpty]
  | cons c rest ih =>
    simp [isSubB, Bool.or_eq_true, isPrefixB_iff, ih, List.infix_cons_iff]

theorem idsOf_cons (j : CanonJob) (t : List CanonJob) :
    idsOf (j :: t) = j.job_id :: idsOf t := rfl

theorem idsOf_append (l1 l2 : List CanonJob) :
    idsOf (l1 ++ l2) = idsOf l1 ++ idsOf l2 := List.map_append _ _ _

theorem mem_idsOf_dedupeAux (k : String) (l : List CanonJob) : ∀ seen : List String,
    k ∈ idsOf (dedupeAux seen l) ↔ k ∈ idsOf l ∧ k ∉ seen := by
  induction l with
  | nil => intro seen; simp [dedupeAux, idsOf]
  | cons j t ih =>
    intro seen
    by_cases hc : j.job_id ∈ seen
    · rw [show dedupeAux seen (j :: t) = dedupeAux seen t by simp [dedupeAux, hc]]
      rw [ih seen, idsOf_cons]
      constructor
      · rintro ⟨h1, h2⟩; exact ⟨List.mem_cons_of_mem _ h1, h2⟩
      · rintro ⟨h1, h2⟩
        rcases List.mem_cons.mp h1 with he | ht
        · exact absurd (he ▸ hc) h2
        · exact ⟨ht, h2⟩
    · rw [show dedupeAux seen (j :: t) = j :: dedupeAux (j.job_id :: seen) t by
        simp [dedupeAux, hc]]
      rw [idsOf_cons, idsOf_cons]
      constructor
      · intro h1
        rcases List.mem_cons.mp h1 with he | ht
        · subst he; exact ⟨List.mem_cons_self _ _, hc⟩
        · rcases (ih (j.job_id :: seen)).mp ht with ⟨ht2, hn2⟩
          exact ⟨List.mem_cons_of_mem _ ht2, fun hm => hn2 (List.mem_cons_of_mem _ hm)⟩
      · rintro ⟨h1, h2⟩
        by_cases hk : k = j.job_id
        · exact hk ▸ List.mem_cons_self _ _
        · rcases List.mem_cons.mp h1 with he | ht
          · exact absurd he hk
          · refine List.mem_cons_of_mem _ ((ih (j.job_id :: seen)).mpr ⟨ht, fun hm => ?_⟩)
            rcases List.mem_cons.mp hm with h3 | h4
            · exact hk h3
            · exact h2 h4

theorem dedupeAux_eq_nil (l : List CanonJob) : ∀ seen : List String,
    (∀ j ∈ l, j.job_id ∈ seen) → dedupeAux seen l = [] := by
  induction l with
  | nil => intro seen _; rfl
  | cons j t ih =>
    intro seen h
    have hc : j.job_id ∈ seen := h j (List.mem_cons_self _ _)
    rw [show dedupeAux seen (j :: t) = dedupeAux seen t by simp [dedupeAux, hc]]
    exact ih seen (fun x hx => h x (List.mem_cons_of_mem _ hx))

theorem dedupeAux_append_absorb (l2 : List CanonJob) : ∀ (l1 : List CanonJob) (seen : List String),
    (∀ j ∈ l2, j.job_id ∈ seen ∨ j.job_id ∈ idsOf l1) →
    dedupeAux seen (l1 ++ l2) = dedupeAux seen l1 := by
  intro l1
  induction l1 with
  | nil =>
    intro seen h
    rw [List.nil_append]
    refine (dedupeAux_eq_nil l2 seen (fun j hj => ?_)).trans rfl
    rcases h j hj with hs | hn
    · exact hs
    · exact absurd hn (by simp [idsOf])
  | cons a t ih =>
    intro seen h
    by_cases hc : a.job_id ∈ seen
    · rw [List.cons_append]
      rw [show dedupeAux seen (a :: (t ++ l2)) = dedupeAux seen (t ++ l2) by
        simp [dedupeAux, hc]]
      rw [show dedupeAux seen (a :: t) = dedupeAux seen t by simp [dedupeAux, hc]]
      refine ih seen (fun j hj => ?_)
      rcases h j hj with hs | hn
      · exact Or.inl hs
      · rw [idsOf_cons] at hn
        rcases List.mem_cons.mp hn with he | ht
        · exact Or.inl (he ▸ hc)
        · exact Or.inr ht
    · rw [List.cons_append]
      rw [show dedupeAux seen (a :: (t ++ l2)) = a :: dedupeAux (a.job_id :: seen) (t ++ l2) by
        simp [dedupeAux, hc]]
      rw [show dedupeAux seen (a :: t) = a :: dedupeAux (a.job_id :: seen) t by
        simp [dedupeAux, hc]]
      congr 1
      refine ih _ (fun j hj => ?_)
      rcases h j hj with hs | hn
      · exact Or.inl (List.mem_cons_of_mem _ hs)
      · rw [idsOf_cons] at hn
        rcases List.mem_cons.mp hn with he | ht
        · exact Or.inl (he ▸ List.mem_cons_self _ _)
        · exact Or.inr ht

theorem idsOf_dedupeAux_nodup (l : List CanonJob) : ∀ seen : List String,
    (idsOf (dedupeAux seen l)).Nodup := by
  induction l with
  | nil => intro seen; simp [dedupeAux, idsOf]
  | cons j t ih =>
    intro seen
    by_cases hc : j.job_id ∈ seen
    · rw [show dedupeAux seen (j :: t) = dedupeAux seen t by simp [dedupeAux, hc]]
      exact ih seen
    · rw [show dedupeAux seen (j :: t) = j :: dedupeAux (j.job_id :: seen) t by
        simp [dedupeAux, hc]]
      rw [idsOf_cons]
      refine List.nodup_cons.mpr ⟨fun hmem => ?_, ih _⟩
      exact ((mem_idsOf_dedupeAux _ _ _).mp hmem).2 (List.mem_cons_self _ _)

theorem dedupeAux_of_nodup (l : List CanonJob) : ∀ seen : List String,
    (idsOf l).Nodup → (∀ x ∈ idsOf l, x ∉ seen) → dedupeAux seen l = l := by
  induction l with
  | nil => intro seen _ _; rfl
  | cons j t ih =>
    intro seen hnd hdis
    have hc : j.job_id ∉ seen := hdis _ (by rw [idsOf_cons]; exact List.mem_cons_self _ _)
    rw [show dedupeAux seen (j :: t) = j :: dedupeAux (j.job_id :: seen) t by
      simp [dedupeAux, hc]]
    congr 1
    rw [idsOf_cons] at hnd
    refine ih _ (List.nodup_cons.mp hnd).2 (fun x hx hmem => ?_)
    rcases List.mem_cons.mp hmem with he | hs
    · exact (List.nodup_cons.mp hnd).1 (he ▸ hx)
    · exact hdis x (by rw [idsOf_cons]; exact List.mem_cons_of_mem _ hx) hs

theorem find_dedupeAux (k : String) (l : List CanonJob) : ∀ seen : List String, k ∉ seen →
    (dedupeAux seen l).find? (fun j => j.job_id == k) = l.find? (fun j => j.job_id == k) := by
  induction l with
  | nil => intro seen _; rfl
  | cons j t ih =>
    intro seen hk
    by_cases hjk : j.job_id = k
    · have hc : j.job_id ∉ seen := fun hcc => hk (hjk ▸ hcc)
      rw [show dedupeAux seen (j :: t) = j :: dedupeAux (j.job_id :: seen) t by
        simp [dedupeAux, hc]]
      rw [List.find?_cons_of_pos _ (by simp [hjk]), List.find?_cons_of_pos _ (by simp [hjk])]
    · by_cases hc : j.job_id ∈ seen
      · rw [show dedupeAux seen (j :: t) = dedupeAux seen t by simp [dedupeAux, hc]]
        rw [ih seen hk, List.find?_cons_of_neg _ (by simp [hjk])]
      · rw [show dedupeAux seen (j :: t) = j :: dedupeAux (j.job_id :: seen) t by
          simp [dedupeAux, hc]]
        rw [List.find?_cons_of_neg _ (by simp [hjk]), List.find?_cons_of_neg _ (by simp [hjk])]
        refine ih _ (fun hm => ?_)
        rcases List.mem_cons.mp hm with he | hs
        · exact hjk he.symm
        · exact hk hs

theorem dropEpoch_job_id (j : CanonJob) : (dropEpoch j).job_id = j.job_id := rfl

theorem idsOf_map_dropEpoch (l : List CanonJob) : idsOf (l.map dropEpoch) = idsOf l := by
  induction l with
  | nil => rfl
  | cons j t ih => rw [List.map_cons, idsOf_cons, idsOf_cons, ih]; rfl

theorem find_map_dropEpoch (k : String) (l : List CanonJob) :
    (l.map dropEpoch).find? (fun j => j.job_id == k) =
      (l.find? (fun j => j.job_id == k)).map dropEpoch := by
  induction l with
  | nil => rfl
  | cons j t ih =>
    by_cases hjk : j.job_id = k
    · rw [List.map_cons, List.find?_cons_of_pos _ (by simp [dropEpoch_job_id, hjk]),
        List.find?_cons_of_pos _ (by simp [hjk])]
      rfl
    · rw [List.map_cons, List.find?_cons_of_neg _ (by simp [dropEpoch_job_id, hjk]),
        List.find?_cons_of_neg _ (by simp [hjk])]
      exact ih

theorem map_dropEpoch_idem (l : List CanonJob) :
    (l.map dropEpoch).map dropEpoch = l.map dropEpoch := by
  induction l with
  | nil => rfl
  | cons j t ih => simp only [List.map_cons, ih]; rfl

/-! ## Lemmas about the numeric-string parse path -/

theorem digits_of_parseNat {l : List Char} {v : Nat} (h : parseNatDigits l = some v) :
    l ≠ [] ∧ ∀ c ∈ l, c.isDigit = true := by
  unfold parseNatDigits at h
  split at h
  · rename_i hc
    constructor
    · intro he; subst he; simp at hc
    · intro c hcm
      have h2 : l.all Char.isDigit = true := by
        cases hall : l.all Char.isDigit
        · rw [hall, Bool.and_false] at hc; exact absurd hc (by decide)
        · rfl
      exact List.all_eq_true.mp h2 c hcm
  · exact absurd h (by simp)

theorem readDigitsAux_digits : ∀ (k acc : Nat) (l : List Char), (∀ c ∈ l, c.isDigit = true) →
    readDigitsAux k acc l = none ∨
      ∃ v r, readDigitsAux k acc l = some (v, r) ∧ ∀ c ∈ r, c.isDigit = true := by
  intro k
  induction k with
  | zero => intro acc l h; exact Or.inr ⟨acc, l, rfl, h⟩
  | succ k ih =>
    intro acc l h
    cases l with
    | nil => exact Or.inl rfl
    | cons c t =>
      have hc : c.isDigit = true := h c (List.mem_cons_self _ _)
      rw [show readDigitsAux (k + 1) acc (c :: t) =
        readDigitsAux k (acc * 10 + (c.toNat - 48)) t by simp [readDigitsAux, hc]]
      exact ih _ t (fun x hx => h x (List.mem_cons_of_mem _ hx))

theorem expectChar_dash_digits {l : List Char} (h : ∀ c ∈ l, c.isDigit = true) :
    expectChar '-' l = none := by
  cases l with
  | nil => rfl
  | cons a t =>
    have ha := h a (List.mem_cons_self _ _)
    have hne : ¬(a = '-') := by intro he; rw [he] at ha; exact absurd ha (by decide)
    simp [expectChar, hne]

theorem parseIso_digits {l : List Char} (h : ∀ c ∈ l, c.isDigit = true) :
    parseIso l = none := by
  rcases readDigitsAux_digits 4 0 l h with h4 | ⟨v, r, h4, hr⟩
  · simp [parseIso, h4]
  · simp [parseIso, h4, expectChar_dash_digits hr]

theorem digit_ne_Z {c : Char} (h : c.isDigit = true) : c ≠ 'Z' := by
  intro he; rw [he] at h; exact absurd h (by decide)

theorem replaceZ_id {l : List Char} (h : ∀ c ∈ l, c ≠ 'Z') : replaceZ l = l := by
  induction l with
  | nil => rfl
  | cons c t ih =>
    have hc : ¬(c = 'Z') := h c (List.mem_cons_self _ _)
    simp [replaceZ, hc, ih (fun x hx => h x (List.mem_cons_of_mem _ hx))]

theorem readDigitsAux_nondigit {c : Char} (h : c.isDigit = false) (k acc : Nat)
    (t : List Char) : readDigitsAux (k + 1) acc (c :: t) = none := by
  simp [readDigitsAux, h]

/-- A string accepted by the numeric-epoch fallback is never valid ISO-8601
input: `float`-shaped strings (optional sign, then digits) fail
`fromisoformat`, so the source's inner fallback applies. -/
theorem parseFloat_iso_none {l : List Char} {n : Int} (h : parseFloatChars l = some n) :
    parseIso (replaceZ l) = none ∧ l ≠ [] := by
  unfold parseFloatChars at h
  split at h
  · rename_i rest
    cases hpn : parseNatDigits rest with
    | none => rw [hpn] at h; exact absurd h (by simp)
    | some v =>
      rcases digits_of_parseNat hpn with ⟨_, hdig⟩
      have hrz : replaceZ ('-' :: rest) = '-' :: rest := replaceZ_id (by
        intro c hcm
        rcases List.mem_cons.mp hcm with he | ht
        · subst he; decide
        · exact digit_ne_Z (hdig c ht))
      have h40 : readDigitsAux 4 0 ('-' :: rest) = none := by
        have hnd := readDigitsAux_nondigit (c := '-') (by decide) 3 0 rest
        simpa using hnd
      exact ⟨by rw [hrz]; simp [parseIso, h40], by simp⟩
  · rename_i rest
    cases hpn : parseNatDigits rest with
    | none => rw [hpn] at h; exact absurd h (by simp)
    | some v =>
      rcases digits_of_parseNat hpn with ⟨_, hdig⟩
      have hrz : replaceZ ('+' :: rest) = '+' :: rest := replaceZ_id (by
        intro c hcm
        rcases List.mem_cons.mp hcm with he | ht
        · subst he; decide
        · exact digit_ne_Z (hdig c ht))
      have h40 : readDigitsAux 4 0 ('+' :: rest) = none := by
        have hnd := readDigitsAux_nondigit (c := '+') (by decide) 3 0 rest
        simpa using hnd
      exact ⟨by rw [hrz]; simp [parseIso, h40], by simp⟩
  · cases hpn : parseNatDigits l with
    | none => rw [hpn] at h; exact absurd h (by simp)
    | some v =>
      rcases digits_of_parseNat hpn with ⟨hne, hdig⟩
      have hrz : replaceZ l = l := replaceZ_id (fun c hcm => digit_ne_Z (hdig c hcm))
      exact ⟨by rw [hrz]; exact parseIso_digits hdig, hne⟩

theorem string_ne_empty {s : String} (h : s.toList ≠ []) : s ≠ "" := by
  intro he; apply h; rw [he]; rfl

/-! ## Claims -/

/-- C7 (corrected): the claim fails at the numeric input `0`.  The guard
`if not date_raw` at line 62 treats the number `0` as absent, so
`safe_parse_date(0)` returns `None` rather than the Unix epoch, contrary
to the claim's "including e = 0". -/
theorem c7_counterexample : (safe_parse_date (RawVal.vNum 0)).1 = none := rfl

/-- C7 (amended): every nonzero numeric epoch within `datetime`'s
representable range yields exactly the UTC instant `e` seconds after the
Unix epoch, and every decimal-string epoch (optionally signed digits,
including `"0"`) within range does too; only the bare number `0` is
swallowed by the truthiness guard. -/
theorem c7_amended :
    (∀ n : Int, n ≠ 0 → minEpoch ≤ n → n ≤ maxEpoch →
      (safe_parse_date (RawVal.vNum n)).1 = some n) ∧
    (∀ (s : String) (n : Int), parseFloatChars s.toList = some n →
      minEpoch ≤ n → n ≤ maxEpoch → (safe_parse_date (RawVal.vStr s)).1 = some n) := by
  constructor
  · intro n hn h1 h2
    simp only [safe_parse_date]
    rw [if_neg hn]
    simp [fromtimestampUtc, h1, h2]
  · intro s n hpf h1 h2
    obtain ⟨hiso, hne⟩ := parseFloat_iso_none hpf
    have hs : s ≠ "" := string_ne_empty hne
    have hiso2 : parseIso (replaceZ s.data) = none := hiso
    have hpf2 : parseFloatChars s.data = some n := hpf
    simp only [safe_parse_date]
    rw [if_neg hs]
    simp [hiso2, hpf2, fromtimestampUtc, h1, h2]

/-- C7 witness: the amended theorem applied at the numeric epoch
`1700000000` and at the decimal string `"0"`. -/
theorem c7_witness :
    (safe_parse_date (RawVal.vNum 1700000000)).1 = some 1700000000 ∧
    (safe_parse_date (RawVal.vStr "0")).1 = some 0 :=
  ⟨c7_amended.1 1700000000 (by decide) (by decide) (by decide),
   c7_amended.2 "0" 0 (by decide) (by decide) (by decide)⟩

/-- C8 (confirmed): a `None` timestamp, an empty-string timestamp, and any
string that neither parses as ISO-8601 nor as a decimal number all make
`safe_parse_date` return no instant (never a default), and a record whose
selected date field fails to parse is skipped by the matching loop while
the records before and after it are processed exactly as they would
otherwise be, at their original loop indices. -/
theorem c8_unparseable_excluded :
    (safe_parse_date RawVal.vNone).1 = none ∧
    (safe_parse_date (RawVal.vStr "")).1 = none ∧
    (∀ s : String, parseIso (replaceZ s.toList) = none → parseFloatChars s.toList = none →
      (safe_parse_date (RawVal.vStr s)).1 = none) ∧
    (∀ (cutoff : Int) (force : Bool) (idx : Nat) (pre : List RawJob) (job : RawJob)
      (post : List RawJob), (safe_parse_date (dateField job)).1 = none →
      matchJobsAux cutoff force idx (pre ++ job :: post) =
        matchJobsAux cutoff force idx pre ++
          matchJobsAux cutoff force (idx + pre.length + 1) post) := by
  refine ⟨rfl, rfl, ?_, ?_⟩
  · intro s h1 h2
    by_cases hs : s = ""
    · subst hs; rfl
    · have h1b : parseIso (replaceZ s.data) = none := h1
      have h2b : parseFloatChars s.data = none := h2
      simp only [safe_parse_date]
      rw [if_neg hs]
      simp [h1b, h2b]
  · intro cutoff force idx pre job post hnone
    have hskip : ∀ i, processJob cutoff force i job = [] := by
      intro i; unfold processJob; rw [hnone]
    induction pre generalizing idx with
    | nil =>
      simp [matchJobsAux, hskip idx]
    | cons a t ih =>
      have harith : idx + 1 + t.length + 1 = idx + (t.length + 1) + 1 := by omega
      simp only [List.cons_append, matchJobsAux, List.length_cons, List.append_eq]
      rw [ih (idx + 1), harith, List.append_assoc]

/-- C8 witness: a record with garbage date `"not-a-date"` between two good
records is dropped, and both siblings are processed at their original
indices. -/
theorem c8_witness :
    matchJobsAux 0 false 0 ([c8Good1] ++ c8Bad :: [c8Good2]) =
      matchJobsAux 0 false 0 [c8Good1] ++ matchJobsAux 0 false 2 [c8Good2] :=
  c8_unparseable_excluded.2.2.2 0 false 0 [c8Good1] c8Bad [c8Good2] (by decide)

/-- C1 (corrected): the claim fails on the tag path.  Line 158 tests
`t in tags_lower` where `tags_lower` is a list, which is exact string
equality against each lowercased tag, not substring containment: a job
whose only keyword-bearing text is the tag `"Web3Dev"` is NOT matched,
even though the keyword `"web3"` is a case-insensitive substring of that
tag (second conjunct). -/
theorem c1_counterexample :
    keywordMatch c1TagJob = false ∧ isSubB "web3".toList (lowerStr "Web3Dev") = true := by
  decide

/-- C1 (amended): the matcher returns true iff some configured keyword is
equal (case-insensitively) to some tag string, or is a case-insensitive
substring of the title or of the company name.  Substring containment
applies only to title and company; tags are compared for exact equality
after lowercasing. -/
theorem c1_amended (job : RawJob) :
    keywordMatch job = true ↔
      ∃ t ∈ TAGS, (∃ tg ∈ job.tags, lowerStr tg = t.toList) ∨
        t.toList <:+: lowerStr (job.position.getD "") ∨
        t.toList <:+: lowerStr (job.company.getD "") := by
  simp [keywordMatch, List.any_eq_true, Bool.or_eq_true, isSubB_iff, contains_iff,
    List.mem_map, or_assoc]

/-- C1 witness: the amended characterization applied to a job whose title
`"Solidity Engineer"` contains the keyword `"solidity"`. -/
theorem c1_witness : keywordMatch c1SolJob = true :=
  (c1_amended c1SolJob).mpr ⟨"solidity", by decide, Or.inr (Or.inl (by decide))⟩

/-- C2 (corrected): merge is first-write-wins, not most-recent-write-wins.
Line 199 concatenates the existing rows before the incoming rows and drops
duplicates with `keep="first"`, so for a duplicated id the previously
stored record survives and the incoming record is discarded: merging an
incoming record with id `"1"` and a new title over a stored record with id
`"1"` leaves the stored record (old title) in the ledger. -/
theorem c2_counterexample :
    (save_jobs (some [c2Stored]) [c2Incoming]).fileAfter = some [c2Stored] ∧
    c2Stored.title ≠ c2Incoming.title := by
  decide

/-- C2 (amended): on a duplicate id the merged ledger keeps the first
record the existing ledger already stored for that id (with the ephemeral
epoch column dropped); the incoming record does not replace it. -/
theorem c2_amended (ex inc : List CanonJob) (k : String) (hk : k ∈ idsOf ex)
    (hinc : inc ≠ []) :
    ((save_jobs (some ex) inc).fileAfter.getD []).find? (fun j => j.job_id == k) =
      (ex.find? (fun j => j.job_id == k)).map dropEpoch := by
  have hne : inc.isEmpty = false := by
    cases inc with
    | nil => exact absurd rfl hinc
    | cons a t => rfl
  rw [show (save_jobs (some ex) inc).fileAfter =
      some ((dedupeAux [] (ex ++ inc)).map dropEpoch) from by simp [save_jobs, hne]]
  rw [Option.getD_some, find_map_dropEpoch, find_dedupeAux k _ [] (List.not_mem_nil _)]
  congr 1
  rw [List.find?_append]
  have hsome : (ex.find? (fun j => j.job_id == k)).isSome := by
    rw [List.find?_isSome]
    rcases List.mem_map.mp (by simpa [idsOf] using hk) with ⟨j, hj, hjk⟩
    exact ⟨j, hj, by simp [hjk]⟩
  rcases Option.isSome_iff_exists.mp hsome with ⟨j0, hj0⟩
  rw [hj0]
  rfl

/-- C2 witness: the amended theorem applied to the concrete
stored/incoming pair with duplicate id `"1"`. -/
theorem c2_witness :
    ((save_jobs (some [c2Stored]) [c2Incoming]).fileAfter.getD []).find?
      (fun j => j.job_id == "1") = some c2Stored := by
  have h := c2_amended [c2Stored] [c2Incoming] "1" (by decide) (by decide)
  rw [h]
  decide

/-- C3 (corrected): the claim fails: with the notification token and the
channel id both absent (and sending enabled), the script does not exit at
all — there is no exit call.  Lines 41-43 print a warning, set
`SEND_TELEGRAM = False` and continue the run. -/
theorem c3_counterexample :
    (startupConfig none none (some "1")).exited = false ∧
    (startupConfig none none (some "1")).sendTelegram = false ∧
    (startupConfig none none (some "1")).warned = true := by
  decide

/-- C3 (amended): missing credentials are never fatal: startup never
terminates the process, and whenever Telegram sending remains enabled
after startup, both the auth token and the chat id were present and
non-empty and `SEND_TELEGRAM` was set to `"1"`. -/
theorem c3_amended (tok cid flag : Option String) :
    (startupConfig tok cid flag).exited = false ∧
    ((startupConfig tok cid flag).sendTelegram = true →
      pyTruthyStr tok = true ∧ pyTruthyStr cid = true ∧ (flag.getD "0") = "1") := by
  cases htok : pyTruthyStr tok <;> cases hcid : pyTruthyStr cid <;>
    cases hsend : ((flag.getD "0") == "1") <;>
      simp_all [startupConfig]

/-- C3 witness: the amended theorem applied to a fully configured
environment, discharging the enabled-sending hypothesis. -/
theorem c3_witness :
    (startupConfig (some "t") (some "c") (some "1")).exited = false ∧
    (pyTruthyStr (some "t") = true ∧ pyTruthyStr (some "c") = true ∧
      ((some "1" : Option String).getD "0") = "1") :=
  ⟨(c3_amended (some "t") (some "c") (some "1")).1,
   (c3_amended (some "t") (some "c") (some "1")).2 (by decide)⟩

/-- C4 (corrected): the claim fails for the company field.  Line 165
passes `job.get("company")` through with no default, so a matched record
whose raw company is absent is emitted with an absent company, not the
sentinel `"Unknown"`. -/
theorem c4_counterexample :
    (processJob 0 false 0 c4Job).map (fun j => j.company) = [none] ∧
    (none : Option String) ≠ some "Unknown" := by
  decide

/-- C4 (amended): for every emitted canonical record, the location field
defaults to `"Remote"` when the raw location is absent (line 166), while
the company field is passed through unchanged — an absent raw company
yields an absent company, with no `"Unknown"` sentinel. -/
theorem c4_amended (cutoff : Int) (force : Bool) (idx : Nat) (job : RawJob) :
    ∀ cj ∈ processJob cutoff force idx job,
      cj.location = job.location.getD "Remote" ∧ cj.company = job.company := by
  intro cj hcj
  unfold processJob at hcj
  split at hcj
  · exact absurd hcj (List.not_mem_nil _)
  · split at hcj
    · split at hcj
      · rw [List.mem_singleton] at hcj
        subst hcj
        exact ⟨rfl, rfl⟩
      · exact absurd hcj (List.not_mem_nil _)
    · exact absurd hcj (List.not_mem_nil _)

/-- C4 witness: the amended theorem applied to a matched record with
absent company and location. -/
theorem c4_witness : c4Canon.location = "Remote" ∧ c4Canon.company = none :=
  c4_amended 0 false 0 c4Job c4Canon (by
    rw [show processJob 0 false 0 c4Job = [c4Canon] from by decide]
    exact List.mem_singleton_self _)

/-- C5 (confirmed): `novel` is exactly the sublist of `incoming` whose ids
are absent from the existing ledger as it was before the merge (the filter
at line 192 runs against the pre-merge id set), order preserved, and the
merged ledger's key set is exactly the union of the existing and incoming
key sets. -/
theorem c5_merge_spec (ex inc : List CanonJob) :
    (save_jobs (some ex) inc).novel =
        inc.filter (fun j => !((idsOf ex).contains j.job_id)) ∧
    ((save_jobs (some ex) inc).novel.Sublist inc) ∧
    (∀ j, j ∈ (save_jobs (some ex) inc).novel ↔ j ∈ inc ∧ j.job_id ∉ idsOf ex) ∧
    (∀ k, k ∈ idsOf ((save_jobs (some ex) inc).fileAfter.getD []) ↔
      k ∈ idsOf ex ∨ k ∈ idsOf inc) := by
  by_cases hinc : inc.isEmpty = true
  · have he : inc = [] := by
      cases inc with
      | nil => rfl
      | cons a t => simp at hinc
    subst he
    simp [save_jobs, idsOf]
  · have h1 : (save_jobs (some ex) inc).novel =
        inc.filter (fun j => !((idsOf ex).contains j.job_id)) := by
      simp [save_jobs, hinc]
    have h2 : (save_jobs (some ex) inc).fileAfter =
        some ((dedupeAux [] (ex ++ inc)).map dropEpoch) := by
      simp [save_jobs, hinc]
    refine ⟨h1, ?_, ?_, ?_⟩
    · rw [h1]; exact List.filter_sublist _
    · intro j
      rw [h1, List.mem_filter]
      constructor
      · rintro ⟨hj, hp⟩
        refine ⟨hj, fun hm => ?_⟩
        rw [(contains_iff (idsOf ex) j.job_id).mpr hm] at hp
        exact absurd hp (by decide)
      · rintro ⟨hj, hm⟩
        refine ⟨hj, ?_⟩
        cases hcon : (idsOf ex).contains j.job_id
        · rfl
        · exact absurd ((contains_iff _ _).mp hcon) hm
    · intro k
      rw [h2, Option.getD_some, idsOf_map_dropEpoch, mem_idsOf_dedupeAux k (ex ++ inc) []]
      simp [idsOf_append, List.mem_append]

/-- C5 witness: the spec example — existing ledger `{id "1"}`, incoming
`[{id "1"}, {id "2"}]` — gives novel containing the id-"2" record and a
merged key set containing both `"1"` and `"2"`. -/
theorem c5_witness :
    c5In2 ∈ (save_jobs (some [c5Ex]) [c5In1, c5In2]).novel ∧
    ("2" ∈ idsOf ((save_jobs (some [c5Ex]) [c5In1, c5In2]).fileAfter.getD [])) ∧
    ("1" ∈ idsOf ((save_jobs (some [c5Ex]) [c5In1, c5In2]).fileAfter.getD [])) :=
  ⟨((c5_merge_spec [c5Ex] [c5In1, c5In2]).2.2.1 c5In2).mpr ⟨by decide, by decide⟩,
   ((c5_merge_spec [c5Ex] [c5In1, c5In2]).2.2.2 "2").mpr (Or.inr (by decide)),
   ((c5_merge_spec [c5Ex] [c5In1, c5In2]).2.2.2 "1").mpr (Or.inl (by decide))⟩

/-- C6 (confirmed): merging a second time with the identical incoming
sequence against the result of the first merge leaves the persisted ledger
unchanged and yields an empty novel sequence. -/
theorem c6_idempotent (file : Option (List CanonJob)) (inc : List CanonJob) :
    (save_jobs (save_jobs file inc).fileAfter inc).fileAfter =
      (save_jobs file inc).fileAfter ∧
    (save_jobs (save_jobs file inc).fileAfter inc).novel = [] := by
  by_cases hinc : inc.isEmpty = true
  · have he : inc = [] := by
      cases inc with
      | nil => rfl
      | cons a t => simp at hinc
    subst he
    exact ⟨rfl, rfl⟩
  · have hfa : (save_jobs file inc).fileAfter =
        some ((dedupeAux [] (file.getD [] ++ inc)).map dropEpoch) := by
      simp [save_jobs, hinc]
    set m1 := dedupeAux [] (file.getD [] ++ inc) with hm1
    set e2 := m1.map dropEpoch with he2
    have hids : ∀ j ∈ inc, j.job_id ∈ idsOf e2 := by
      intro j hj
      rw [he2, idsOf_map_dropEpoch, hm1, mem_idsOf_dedupeAux]
      refine ⟨?_, List.not_mem_nil _⟩
      rw [idsOf_append]
      exact List.mem_append_right _ (List.mem_map.mpr ⟨j, hj, rfl⟩)
    have hnodup : (idsOf e2).Nodup := by
      rw [he2, idsOf_map_dropEpoch, hm1]
      exact idsOf_dedupeAux_nodup _ []
    have habs : dedupeAux [] (e2 ++ inc) = dedupeAux [] e2 :=
      dedupeAux_append_absorb inc e2 [] (fun j hj => Or.inr (hids j hj))
    have hfix : dedupeAux [] e2 = e2 :=
      dedupeAux_of_nodup e2 [] hnodup (fun x _ hm => absurd hm (List.not_mem_nil _))
    constructor
    · rw [hfa]
      rw [show (save_jobs (some e2) inc).fileAfter =
          some ((dedupeAux [] (e2 ++ inc)).map dropEpoch) from by simp [save_jobs, hinc]]
      rw [habs, hfix, he2, map_dropEpoch_idem]
    · rw [hfa]
      rw [show (save_jobs (some e2) inc).novel =
          inc.filter (fun j => !((idsOf e2).contains j.job_id)) from by
        simp [save_jobs, hinc]]
      rw [List.filter_eq_nil_iff]
      intro j hj
      simpa using hids j hj

theorem processJob_length_eq {cutoff : Int} {force : Bool} {idx : Nat} {j1 j2 : RawJob}
    (hd : dateField j1 = dateField j2) (hk : keywordMatch j1 = keywordMatch j2) :
    (processJob cutoff force idx j1).length = (processJob cutoff force idx j2).length := by
  unfold processJob
  rw [hd, hk]
  cases hx : (safe_parse_date (dateField j2)).1 with
  | none => rfl
  | some p =>
    simp only []
    by_cases h1 : force = true ∨ cutoff ≤ p <;> by_cases h2 : keywordMatch j2 = true <;>
      simp [h1, h2]

/-- C9 (confirmed): the filter never drops a record because its id is
absent or falsy — whether a record is emitted is independent of the id
field — and when the id is falsy the emitted canonical record carries the
synthetic identifier `"no-id-<idx>"` built from the record's position in
the input (line 136), which is the `job_id` key later used for dedup. -/
theorem c9_synthetic_id :
    (∀ (cutoff : Int) (force : Bool) (idx : Nat) (job : RawJob) (v : RawVal),
      (processJob cutoff force idx { job with id := v }).length =
        (processJob cutoff force idx job).length) ∧
    (∀ (cutoff : Int) (force : Bool) (idx : Nat) (job : RawJob),
      job.id.truthy = false →
      ∀ cj ∈ processJob cutoff force idx job, cj.job_id = "no-id-" ++ Nat.repr idx) := by
  constructor
  · intro cutoff force idx job v
    exact processJob_length_eq (by cases job; rfl) (by cases job; rfl)
  · intro cutoff force idx job hfalsy cj hcj
    unfold processJob at hcj
    split at hcj
    · exact absurd hcj (List.not_mem_nil _)
    · split at hcj
      · split at hcj
        · rw [List.mem_singleton] at hcj
          subst hcj
          simp [mkCanon, jidStr, hfalsy]
        · exact absurd hcj (List.not_mem_nil _)
      · exact absurd hcj (List.not_mem_nil _)

/-- C9 witness: a record with absent id at index 7 is emitted with
`job_id = "no-id-7"`. -/
theorem c9_witness : c9Canon.job_id = "no-id-" ++ Nat.repr 7 :=
  c9_synthetic_id.2 0 false 7 c9Job rfl c9Canon (by
    rw [show processJob 0 false 7 c9Job = [c9Canon] from by decide]
    exact List.mem_singleton_self _)

/-- C10 (confirmed): with an empty matched-jobs sequence, `save_jobs`
returns an empty novel sequence, performs no read of and no write to the
ledger file, and leaves the persisted ledger contents exactly unchanged
(lines 179-180 return before any file access). -/
theorem c10_empty_noop (file : Option (List CanonJob)) :
    save_jobs file [] = { novel := [], fileAfter := file, events := [] } := rfl

end CryptoScraper
